import Mathlib

/-!
# Package `auth`, file `jwt.go`: compact signed tokens

A shallow embedding of `jwt.go`.  Go strings are Lean strings, byte slices are
lists of octets, and a Go result `(value, error)` is a pair whose second
component is `none` for a nil error.  The standard-library packages the file
calls are handled as follows:

* `strings.Split` and `base64.RawURLEncoding` are modelled concretely;
* `encoding/json`, `crypto/sha256` and `crypto/rsa` are the fields of `Lib`;
  `jwt.go` never inspects a map, a key or a digest, it only hands them over.
-/

namespace auth

/-- One octet of a Go byte slice. -/
abbrev Byte := Fin 256

/-- Conversion `byte(x)` of an unsigned integer: the low eight bits. -/
def byte (x : Nat) : Byte := ⟨x % 256, Nat.mod_lt x (by decide)⟩

/-- Error values that reach the callers of `jwt.go`, by origin. -/
inductive Error where
  /-- `errors.New(text)`, created in `jwt.go` itself -/
  | New (text : String)
  /-- `base64.CorruptInputError(offset)` -/
  | CorruptInputError (offset : Nat)
  /-- an error value returned by `encoding/json` -/
  | Json (text : String)
  /-- an error value returned by `crypto/rsa` -/
  | Rsa (text : String)
deriving DecidableEq, Repr

/-! ## `strings.Split` with a one-byte separator -/

/-- The pieces of `s` between the occurrences of `sep`; always non-empty,
one more piece than there are separators. -/
def splitChars (sep : Char) : List Char → List (List Char)
  | [] => [[]]
  | c :: cs =>
    if c = sep then [] :: splitChars sep cs
    else
      match splitChars sep cs with
      | [] => [[c]]
      | p :: ps => (c :: p) :: ps

/-- Go `strings.Split(s, sep)` for a separator of one byte (here always "."). -/
def strings.Split (s : String) (sep : Char) : List String :=
  (splitChars sep s.data).map String.mk

/-! ## `base64.RawURLEncoding` -/

/-- The URL-safe alphabet, `encodeURL` of package `encoding/base64`. -/
def base64.encodeURL : List Char :=
  "ABCDEFGHIJKLMNOPQRSTUVWXYZabcdefghijklmnopqrstuvwxyz0123456789-_".data

/-- The table lookup `enc.encode[i]`, used with `i < 64`. -/
def base64.encode (i : Nat) : Char := base64.encodeURL.getD i 'A'

/-- The table lookup `enc.decodeMap[c]`; `none` stands for the entry `0xff`. -/
def base64.decodeMap (c : Char) : Option Nat :=
  let i := base64.encodeURL.indexOf c
  if i < 64 then some i else none

/-- The loop of `Encoding.Encode` without padding: three octets give four
characters, a rest of two gives three and a rest of one gives two. -/
def base64.encodeChars : List Byte → List Char
  | [] => []
  | [a] =>
    let val := a.val * 65536
    [base64.encode (val / 262144 % 64), base64.encode (val / 4096 % 64)]
  | [a, b] =>
    let val := a.val * 65536 + b.val * 256
    [base64.encode (val / 262144 % 64), base64.encode (val / 4096 % 64),
     base64.encode (val / 64 % 64)]
  | a :: b :: c :: rest =>
    let val := a.val * 65536 + b.val * 256 + c.val
    base64.encode (val / 262144 % 64) :: base64.encode (val / 4096 % 64) ::
      base64.encode (val / 64 % 64) :: base64.encode (val % 64) ::
      base64.encodeChars rest

/-- Go `base64.RawURLEncoding.EncodeToString`. -/
def base64.EncodeToString (src : List Byte) : String :=
  String.mk (base64.encodeChars src)

/-- The line feed character. -/
def base64.LF : Char := Char.ofNat 10

/-- The carriage return character. -/
def base64.CR : Char := Char.ofNat 13

/-- The loops of `Encoding.Decode` and `decodeQuantum` for an encoding without
padding and without strict mode.  `si` is the offset of the next character,
`dbuf` the sextets of the current quantum read so far (fewer than four).
Carriage return and line feed are skipped; any other character outside the
alphabet is a `CorruptInputError` at its offset; the input may end after zero,
two or three sextets of a quantum but not after one.  The octets decoded
before an error are returned with it, as `DecodeString` does. -/
def base64.decodeFrom : List Char → Nat → List Nat → List Byte × Option Error
  | [], si, dbuf =>
    match dbuf with
    | [] => ([], none)
    | [_] => ([], some (Error.CorruptInputError (si - 1)))
    | [d0, d1] =>
      let val := d0 * 262144 + d1 * 4096
      ([byte (val / 65536)], none)
    | [d0, d1, d2] =>
      let val := d0 * 262144 + d1 * 4096 + d2 * 64
      ([byte (val / 65536), byte (val / 256)], none)
    | _ => ([], none)
  | c :: cs, si, dbuf =>
    match base64.decodeMap c with
    | some out =>
      match dbuf with
      | [d0, d1, d2] =>
        let val := d0 * 262144 + d1 * 4096 + d2 * 64 + out
        let r := base64.decodeFrom cs (si + 1) []
        (byte (val / 65536) :: byte (val / 256) :: byte val :: r.1, r.2)
      | _ => base64.decodeFrom cs (si + 1) (dbuf ++ [out])
    | none =>
      if c = base64.LF ∨ c = base64.CR then base64.decodeFrom cs (si + 1) dbuf
      else ([], some (Error.CorruptInputError si))

/-- Go `base64.RawURLEncoding.DecodeString`. -/
def base64.DecodeString (s : String) : List Byte × Option Error :=
  base64.decodeFrom s.data 0 []

/-- The characters of a segment that `RawURLEncoding` itself can produce: only
characters of the URL alphabet, and not a single character left over beyond
whole groups of four. -/
def base64.Valid (s : String) : Prop :=
  (∀ c ∈ s.data, c ∈ base64.encodeURL) ∧ s.data.length % 4 ≠ 1

instance base64.decidableValid (s : String) : Decidable (base64.Valid s) := by
  unfold base64.Valid
  exact inferInstance

/-- The segments `DecodeString` refuses: a character that is neither in the
alphabet nor a line feed or carriage return, or a number of alphabet
characters that leaves one over beyond whole groups of four. -/
def base64.Rejected (s : String) : Prop :=
  (∃ ch ∈ s.data, ch ∉ base64.encodeURL ∧ ch ≠ base64.LF ∧ ch ≠ base64.CR) ∨
    (s.data.countP (fun ch => decide (ch ∈ base64.encodeURL))) % 4 = 1

/-- The string `s` with the character at position `i` replaced by `y`. -/
def tamper (s : String) (i : Nat) (y : Char) : String := String.mk (s.data.set i y)

/-! ## The packages left abstract -/

/-- Go `crypto.Hash`, an unsigned integer naming a hash function. -/
abbrev crypto.Hash := Nat

/-- Go `crypto.SHA256`. -/
def crypto.SHA256 : crypto.Hash := 5

/-- The standard-library functions `jwt.go` calls without looking inside their
arguments or results.  `Map` is `map[string]interface{}`, the type under both
`RawHeader` and `RawClaims`; the key types are `*rsa.PrivateKey` and
`*rsa.PublicKey`.  Each function reports its own error values, given here by
their text. -/
structure Lib (Map PrivateKey PublicKey : Type) where
  /-- the map literal `map[string]interface{}{}` -/
  emptyMap : Map
  /-- `json.Marshal(d)` -/
  Marshal : Map → Except String (List Byte)
  /-- `json.Unmarshal(data, &d)` with `d` pointing to a map: the map afterwards,
  and the error -/
  Unmarshal : List Byte → Map → Map × Option String
  /-- `sha256.New()`, `Write([]byte(data))`, `Sum(nil)`: the digest of a string -/
  Sum256 : String → List Byte
  /-- `rsa.SignPKCS1v15(rand.Reader, priv, hash, hashed)` -/
  SignPKCS1v15 : PrivateKey → crypto.Hash → List Byte → Except String (List Byte)
  /-- `rsa.VerifyPKCS1v15(pub, hash, hashed, sig)`; `none` is the nil error -/
  VerifyPKCS1v15 : PublicKey → crypto.Hash → List Byte → List Byte → Option String

/-- Go `rsa.ErrVerification`, the error of a failed signature verification. -/
def rsa.ErrVerification : Error := Error.Rsa "crypto/rsa: verification error"

/-! ## `jwt.go` -/

/-- The constant `alg`. -/
def alg : crypto.Hash := crypto.SHA256

/-- The struct `JWT`: a header and a claims map. -/
structure JWT (Map : Type) where
  header : Map
  claims : Map
deriving DecidableEq, Repr

/-- The constructor `NewJWT`. -/
def NewJWT {Map : Type} (header claims : Map) : JWT Map :=
  { header := header, claims := claims }

section
variable {Map PrivateKey PublicKey : Type}

/-- The function `execSha256`. -/
def execSha256 (lib : Lib Map PrivateKey PublicKey) (data : String) : List Byte :=
  lib.Sum256 data

/-- The function `marshalEncode`. -/
def marshalEncode (lib : Lib Map PrivateKey PublicKey) (d : Map) : String × Option Error :=
  match lib.Marshal d with
  | Except.error err => ("", some (Error.Json err))
  | Except.ok b =>
    let e := base64.EncodeToString b
    (e, none)

/-- The function `decodeUnmarshal`; `d` is the map its second argument points
to, returned as it is after the call. -/
def decodeUnmarshal (lib : Lib Map PrivateKey PublicKey) (s : String) (d : Map) :
    Map × Option Error :=
  match base64.DecodeString s with
  | (_, some err) => (d, some err)
  | (decoded, none) =>
    match lib.Unmarshal decoded d with
    | (d1, some err) => (d1, some (Error.Json err))
    | (d1, none) => (d1, none)

/-- The method `JWT.Encoding`. -/
def JWT.Encoding (lib : Lib Map PrivateKey PublicKey) (j : JWT Map) : String × Option Error :=
  match marshalEncode lib j.header with
  | (_, some err) => ("", some err)
  | (h, none) =>
    match marshalEncode lib j.claims with
    | (_, some err) => ("", some err)
    | (c, none) =>
      let e := h ++ "." ++ c
      (e, none)

/-- The function `Parse`. -/
def Parse (lib : Lib Map PrivateKey PublicKey) (jwtString : String) :
    Option (JWT Map) × Option Error :=
  let parts := strings.Split jwtString '.'
  if parts.length ≤ 1 then (none, some (Error.New "invalid jwt format"))
  else
    let jwt : JWT Map := { header := lib.emptyMap, claims := lib.emptyMap }
    match decodeUnmarshal lib (parts.getD 0 "") jwt.header with
    | (_, some err) => (none, some err)
    | (header, none) =>
      match decodeUnmarshal lib (parts.getD 1 "") jwt.claims with
      | (_, some err) => (none, some err)
      | (claims, none) => (some { header := header, claims := claims }, none)

/-- The function `signJWT`. -/
def signJWT (lib : Lib Map PrivateKey PublicKey) (privateKey : PrivateKey) (jwt : JWT Map) :
    String × Option Error :=
  match jwt.Encoding lib with
  | (_, some err) => ("", some err)
  | (ss, none) =>
    match lib.SignPKCS1v15 privateKey alg (execSha256 lib ss) with
    | Except.error err => ("", some (Error.Rsa err))
    | Except.ok sig => (ss ++ "." ++ base64.EncodeToString sig, none)

/-- The function `verifyJWT`. -/
def verifyJWT (lib : Lib Map PrivateKey PublicKey) (token : String) (key : PublicKey) :
    Option Error :=
  let parts := strings.Split token '.'
  if parts.length ≠ 3 then
    some (Error.New "invalid token received, token must have 3 parts")
  else
    let signedContent := parts.getD 0 "" ++ "." ++ parts.getD 1 ""
    match base64.DecodeString (parts.getD 2 "") with
    | (_, some err) => some err
    | (signatureString, none) =>
      (lib.VerifyPKCS1v15 key alg (execSha256 lib signedContent) signatureString).map Error.Rsa

end

/-! ## A small instance of the library interface

Maps are kept as the text of their JSON object, the digest is a three-octet
checksum and a signature is the key number followed by the digest.  The
instance serves to evaluate the functions above on concrete tokens. -/

/-- The octets of an ASCII string. -/
def demoBytes (s : String) : List Byte := s.data.map (fun c => byte c.toNat)

/-- The ASCII string of a list of octets. -/
def demoText (b : List Byte) : String := String.mk (b.map (fun x => Char.ofNat x.val))

/-- A checksum of three octets standing in for SHA-256. -/
def demoSum (s : String) : List Byte :=
  let h := s.data.foldl (fun acc c => (acc * 31 + c.toNat) % 65521) 7
  [byte (h / 256), byte h, byte s.data.length]

/-- The instance: JSON objects as text, checksum digest, keyed-tag signatures. -/
def demo : Lib String Nat Nat where
  emptyMap := "\x7b\x7d"
  Marshal := fun m =>
    if m.data.head? = some (Char.ofNat 123) then Except.ok (demoBytes m)
    else Except.error "json: unsupported type"
  Unmarshal := fun data d =>
    if data.head? = some (byte 123) ∧ data.getLast? = some (byte 125) then (demoText data, none)
    else (d, some "json: cannot unmarshal into Go value of type map[string]interface \x7b\x7d")
  Sum256 := demoSum
  SignPKCS1v15 := fun priv _ hashed =>
    if priv = 0 then Except.error "crypto/rsa: message too long for RSA key size"
    else Except.ok (byte priv :: hashed)
  VerifyPKCS1v15 := fun pub _ hashed sig =>
    if sig = byte pub :: hashed then none else some "crypto/rsa: verification error"

/-- The header of the worked example, as JSON text. -/
def demoHeader : String := "\x7b\"alg\":\"RS256\",\"typ\":\"JWT\"\x7d"

/-- The claims of the worked example, as JSON text. -/
def demoClaims : String := "\x7b\"sub\":\"123\"\x7d"

/-! ## The same instance with the nil map and the zero-value key

Go has a map value that is no map, the nil map: `json.Marshal` writes it as
`null`, and `json.Unmarshal` reads `null` without an error and without
touching the map it was asked to fill.  It also has the public key
`&rsa.PublicKey{}`, for which `rsa.VerifyPKCS1v15` reports that the modulus
is missing.  Here the nil map is `none` and that key is number 0. -/

/-- The instance `demo` extended by the nil map and the zero-value key. -/
def demoNil : Lib (Option String) Nat Nat where
  emptyMap := some "\x7b\x7d"
  Marshal := fun m =>
    match m with
    | none => Except.ok (demoBytes "null")
    | some text => demo.Marshal text
  Unmarshal := fun data d =>
    if data = demoBytes "null" then (d, none)
    else
      match demo.Unmarshal data (d.getD "") with
      | (text, none) => (some text, none)
      | (_, some err) => (d, some err)
  Sum256 := demoSum
  SignPKCS1v15 := demo.SignPKCS1v15
  VerifyPKCS1v15 := fun pub hash hashed sig =>
    if pub = 0 then some "crypto/rsa: missing public modulus"
    else demo.VerifyPKCS1v15 pub hash hashed sig

variable {Map PrivateKey PublicKey : Type}

/-! ## Facts about `strings.Split` -/

theorem splitChars_ne_nil (sep : Char) (s : List Char) : splitChars sep s ≠ [] := by
  induction s with
  | nil => simp [splitChars]
  | cons c cs ih =>
    unfold splitChars
    split
    · simp
    · split <;> simp

theorem splitChars_of_not_mem (sep : Char) (s : List Char) (h : sep ∉ s) :
    splitChars sep s = [s] := by
  induction s with
  | nil => rfl
  | cons c cs ih =>
    have hc : ¬ c = sep := fun e => h (by simp [e])
    have hcs : sep ∉ cs := fun e => h (by simp [e])
    simp [splitChars, hc, ih hcs]

theorem splitChars_append_sep (sep : Char) (a b : List Char) (h : sep ∉ a) :
    splitChars sep (a ++ sep :: b) = a :: splitChars sep b := by
  induction a with
  | nil => simp [splitChars]
  | cons c cs ih =>
    have hc : ¬ c = sep := fun e => h (by simp [e])
    have hcs : sep ∉ cs := fun e => h (by simp [e])
    simp [splitChars, hc, ih hcs]

theorem splitChars_length (sep : Char) (s : List Char) :
    (splitChars sep s).length = s.count sep + 1 := by
  induction s with
  | nil => rfl
  | cons c cs ih =>
    unfold splitChars
    by_cases hc : c = sep
    · simp [hc, ih]
    · rw [if_neg hc]
      have hne := splitChars_ne_nil sep cs
      cases hs : splitChars sep cs with
      | nil => exact absurd hs hne
      | cons p ps =>
        rw [hs] at ih
        simp only [List.length_cons] at ih ⊢
        rw [List.count_cons_of_ne (Ne.symm hc)]
        exact ih

theorem not_mem_of_mem_splitChars (sep : Char) (s p : List Char)
    (hp : p ∈ splitChars sep s) : sep ∉ p := by
  induction s generalizing p with
  | nil =>
    simp [splitChars] at hp
    simp [hp]
  | cons c cs ih =>
    unfold splitChars at hp
    by_cases hc : c = sep
    · rw [if_pos hc] at hp
      rcases List.mem_cons.mp hp with h | h
      · simp [h]
      · exact ih p h
    · rw [if_neg hc] at hp
      cases hs : splitChars sep cs with
      | nil => exact absurd hs (splitChars_ne_nil sep cs)
      | cons q qs =>
        rw [hs] at hp ih
        rcases List.mem_cons.mp hp with h | h
        · subst h
          have hq := ih q (List.mem_cons_self _ _)
          intro hm
          rcases List.mem_cons.mp hm with h1 | h1
          · exact hc h1.symm
          · exact hq h1
        · exact ih p (List.mem_cons_of_mem _ h)

theorem splitChars_intercalate (sep : Char) (s : List Char) :
    List.intercalate [sep] (splitChars sep s) = s := by
  induction s with
  | nil => rfl
  | cons c cs ih =>
    unfold splitChars
    by_cases hc : c = sep
    · rw [if_pos hc]
      cases hs : splitChars sep cs with
      | nil => exact absurd hs (splitChars_ne_nil sep cs)
      | cons q qs =>
        rw [hs] at ih
        rw [← ih, hc]
        simp [List.intercalate, List.intersperse]
    · rw [if_neg hc]
      cases hs : splitChars sep cs with
      | nil => exact absurd hs (splitChars_ne_nil sep cs)
      | cons q qs =>
        rw [hs] at ih
        rw [← ih]
        cases qs <;> simp [List.intercalate, List.intersperse]

theorem count_dot_two_segments (a b : List Char) (ha : '.' ∉ a) (hb : '.' ∉ b) :
    (a ++ '.' :: b).count '.' = 1 := by
  rw [List.count_append, List.count_cons_self, List.count_eq_zero.mpr ha,
    List.count_eq_zero.mpr hb]

theorem Split_one (a : String) (ha : '.' ∉ a.data) : strings.Split a '.' = [a] := by
  simp [strings.Split, splitChars_of_not_mem _ _ ha]

theorem Split_two (a b : String) (ha : '.' ∉ a.data) (hb : '.' ∉ b.data) :
    strings.Split (a ++ "." ++ b) '.' = [a, b] := by
  have h1 : (a ++ "." ++ b).data = a.data ++ '.' :: b.data := by
    simp [String.data_append]
  simp [strings.Split, h1, splitChars_append_sep _ _ _ ha, splitChars_of_not_mem _ _ hb]

theorem Split_three (a b c : String) (ha : '.' ∉ a.data) (hb : '.' ∉ b.data)
    (hc : '.' ∉ c.data) :
    strings.Split (a ++ "." ++ b ++ "." ++ c) '.' = [a, b, c] := by
  have h1 : (a ++ "." ++ b ++ "." ++ c).data = a.data ++ '.' :: (b.data ++ '.' :: c.data) := by
    simp [String.data_append]
  simp [strings.Split, h1, splitChars_append_sep _ _ _ ha, splitChars_append_sep _ _ _ hb,
    splitChars_of_not_mem _ _ hc]

theorem Split_length (s : String) :
    (strings.Split s '.').length = s.data.count '.' + 1 := by
  simp [strings.Split, splitChars_length]

theorem Split_length_lt_two_iff (s : String) :
    (strings.Split s '.').length < 2 ↔ '.' ∉ s.data := by
  rw [Split_length, ← List.count_eq_zero]
  omega

theorem Split_two_le (s : String) (h : 2 ≤ (strings.Split s '.').length) :
    ∃ tl, strings.Split s '.'
      = (strings.Split s '.').getD 0 "" :: (strings.Split s '.').getD 1 "" :: tl := by
  rcases hs : strings.Split s '.' with _ | ⟨a, _ | ⟨b, tl⟩⟩
  · rw [hs] at h; simp at h
  · rw [hs] at h; simp at h
  · exact ⟨tl, by simp⟩

theorem mem_Split_no_dot (s p : String) (h : p ∈ strings.Split s '.') : '.' ∉ p.data := by
  simp only [strings.Split, List.mem_map] at h
  obtain ⟨l, hl, rfl⟩ := h
  exact not_mem_of_mem_splitChars '.' s.data l hl

/-! ## Facts about `base64.RawURLEncoding` -/

theorem decodeMap_encode (i : Nat) (h : i < 64) : base64.decodeMap (base64.encode i) = some i := by
  revert i
  decide

theorem encode_mem (i : Nat) (h : i < 64) : base64.encode i ∈ base64.encodeURL := by
  revert i
  decide

theorem decodeMap_isSome_of_mem (c : Char) (h : c ∈ base64.encodeURL) :
    ∃ v, base64.decodeMap c = some v ∧ v < 64 := by
  unfold base64.decodeMap
  have hlt : base64.encodeURL.indexOf c < 64 := by
    have := List.indexOf_lt_length.mpr h
    simpa [base64.encodeURL] using this
  exact ⟨_, by simp [hlt], hlt⟩

theorem decodeMap_eq_none_of_not_mem (c : Char) (h : c ∉ base64.encodeURL) :
    base64.decodeMap c = none := by
  unfold base64.decodeMap
  have hlt : ¬ base64.encodeURL.indexOf c < 64 := by
    intro hlt
    apply h
    apply List.indexOf_lt_length.mp
    simpa [base64.encodeURL] using hlt
  simp [hlt]

theorem dot_not_mem_encodeURL : '.' ∉ base64.encodeURL := by decide

theorem LF_not_mem_encodeURL : base64.LF ∉ base64.encodeURL := by decide

theorem CR_not_mem_encodeURL : base64.CR ∉ base64.encodeURL := by decide

theorem decodeMap_encode_mod (n : Nat) :
    base64.decodeMap (base64.encode (n % 64)) = some (n % 64) :=
  decodeMap_encode _ (Nat.mod_lt _ (by decide))

theorem decodeFrom_encodeChars : ∀ (bs : List Byte) (si : Nat),
    base64.decodeFrom (base64.encodeChars bs) si [] = (bs, none)
  | [], si => by simp [base64.encodeChars, base64.decodeFrom]
  | [a], si => by
    have ha := a.isLt
    simp only [base64.encodeChars, base64.decodeFrom, decodeMap_encode_mod, List.nil_append,
      List.singleton_append, Prod.mk.injEq, List.cons.injEq, and_true]
    apply Fin.ext
    simp only [byte]
    omega
  | [a, b], si => by
    have ha := a.isLt
    have hb := b.isLt
    simp only [base64.encodeChars, base64.decodeFrom, decodeMap_encode_mod, List.nil_append,
      List.singleton_append, List.cons_append, Prod.mk.injEq, List.cons.injEq, and_true]
    refine ⟨?_, ?_⟩ <;> apply Fin.ext <;> simp only [byte] <;> omega
  | a :: b :: c :: rest, si => by
    have ha := a.isLt
    have hb := b.isLt
    have hc := c.isLt
    have ih := decodeFrom_encodeChars rest (si + 1 + 1 + 1 + 1)
    simp only [base64.encodeChars, base64.decodeFrom, decodeMap_encode_mod, List.nil_append,
      List.singleton_append, List.cons_append, ih, Prod.mk.injEq, List.cons.injEq, and_true]
    refine ⟨?_, ?_, ?_⟩ <;> apply Fin.ext <;> simp only [byte] <;> omega

theorem DecodeString_EncodeToString (b : List Byte) :
    base64.DecodeString (base64.EncodeToString b) = (b, none) := by
  simp [base64.DecodeString, base64.EncodeToString, decodeFrom_encodeChars]

theorem encodeChars_mem : ∀ (bs : List Byte) (c : Char),
    c ∈ base64.encodeChars bs → c ∈ base64.encodeURL
  | [], c, h => by simp [base64.encodeChars] at h
  | [a], c, h => by
    simp only [base64.encodeChars, List.mem_cons, List.mem_singleton, List.not_mem_nil,
      or_false] at h
    rcases h with h | h <;> subst h <;> exact encode_mem _ (Nat.mod_lt _ (by decide))
  | [a, b], c, h => by
    simp only [base64.encodeChars, List.mem_cons, List.mem_singleton, List.not_mem_nil,
      or_false] at h
    rcases h with h | h | h <;> subst h <;> exact encode_mem _ (Nat.mod_lt _ (by decide))
  | a :: b :: d :: rest, c, h => by
    simp only [base64.encodeChars, List.mem_cons] at h
    rcases h with h | h | h | h | h
    · subst h; exact encode_mem _ (Nat.mod_lt _ (by decide))
    · subst h; exact encode_mem _ (Nat.mod_lt _ (by decide))
    · subst h; exact encode_mem _ (Nat.mod_lt _ (by decide))
    · subst h; exact encode_mem _ (Nat.mod_lt _ (by decide))
    · exact encodeChars_mem rest c h

theorem encodeChars_length_mod : ∀ (bs : List Byte),
    (base64.encodeChars bs).length % 4 ≠ 1
  | [] => by simp [base64.encodeChars]
  | [a] => by simp [base64.encodeChars]
  | [a, b] => by simp [base64.encodeChars]
  | a :: b :: d :: rest => by
    have ih := encodeChars_length_mod rest
    simp only [base64.encodeChars, List.length_cons]
    omega

theorem dot_not_mem_encodeChars (bs : List Byte) : '.' ∉ base64.encodeChars bs :=
  fun h => dot_not_mem_encodeURL (encodeChars_mem bs _ h)

theorem dot_not_mem_EncodeToString (b : List Byte) : '.' ∉ (base64.EncodeToString b).data :=
  dot_not_mem_encodeChars b

theorem EncodeToString_valid (b : List Byte) : base64.Valid (base64.EncodeToString b) :=
  ⟨fun c hc => encodeChars_mem b c hc, encodeChars_length_mod b⟩

theorem decodeFrom_error_kind : ∀ (s : List Char) (si : Nat) (dbuf : List Nat) (e : Error),
    (base64.decodeFrom s si dbuf).2 = some e → ∃ k, e = Error.CorruptInputError k := by
  intro s
  induction s with
  | nil =>
    intro si dbuf e h
    simp only [base64.decodeFrom] at h
    split at h <;> simp at h
    exact ⟨_, h.symm⟩
  | cons c cs ih =>
    intro si dbuf e h
    simp only [base64.decodeFrom] at h
    split at h
    · split at h
      · exact ih _ _ e h
      · exact ih _ _ e h
    · split at h
      · exact ih _ _ e h
      · simp at h
        exact ⟨_, h.symm⟩

theorem decodeFrom_valid : ∀ (s : List Char) (si : Nat) (dbuf : List Nat),
    (∀ c ∈ s, c ∈ base64.encodeURL) → dbuf.length < 4 →
    (base64.decodeFrom s si dbuf).2 =
      if (dbuf.length + s.length) % 4 = 1 then some (Error.CorruptInputError (si + s.length - 1))
      else none := by
  intro s
  induction s with
  | nil =>
    intro si dbuf _ hd
    match dbuf, hd with
    | [], _ => simp [base64.decodeFrom]
    | [_], _ => simp [base64.decodeFrom]
    | [_, _], _ => simp [base64.decodeFrom]
    | [_, _, _], _ => simp [base64.decodeFrom]
  | cons c cs ih =>
    intro si dbuf hs hd
    obtain ⟨v, hv, _⟩ := decodeMap_isSome_of_mem c (hs c (List.mem_cons_self _ _))
    have hcs : ∀ x ∈ cs, x ∈ base64.encodeURL := fun x hx => hs x (List.mem_cons_of_mem _ hx)
    match dbuf, hd with
    | [], _ =>
      have := ih (si + 1) [v] hcs (by simp)
      simp only [base64.decodeFrom, hv, List.nil_append, this, List.length_cons, List.length_nil]
      have e1 : (0 + 1 + cs.length) % 4 = (0 + (cs.length + 1)) % 4 := by congr 1; omega
      have e2 : si + 1 + cs.length - 1 = si + (cs.length + 1) - 1 := by omega
      simp only [e1, e2]
    | [d0], _ =>
      have := ih (si + 1) [d0, v] hcs (by simp)
      simp only [base64.decodeFrom, hv, List.singleton_append, this, List.length_cons,
        List.length_nil]
      have e1 : (0 + 1 + 1 + cs.length) % 4 = (0 + 1 + (cs.length + 1)) % 4 := by congr 1; omega
      have e2 : si + 1 + cs.length - 1 = si + (cs.length + 1) - 1 := by omega
      simp only [e1, e2]
    | [d0, d1], _ =>
      have := ih (si + 1) [d0, d1, v] hcs (by simp)
      simp only [base64.decodeFrom, hv, List.cons_append, List.nil_append, this,
        List.length_cons, List.length_nil]
      have e1 : (0 + 1 + 1 + 1 + cs.length) % 4 = (0 + 1 + 1 + (cs.length + 1)) % 4 := by
        congr 1; omega
      have e2 : si + 1 + cs.length - 1 = si + (cs.length + 1) - 1 := by omega
      simp only [e1, e2]
    | [d0, d1, d2], _ =>
      have := ih (si + 1) [] hcs (by simp)
      simp only [base64.decodeFrom, hv, this, List.length_cons, List.length_nil]
      have e1 : ((0 + 1 + 1 + 1 + (cs.length + 1)) % 4 = 1) = ((0 + cs.length) % 4 = 1) := by
        apply propext; omega
      have e2 : si + 1 + cs.length - 1 = si + (cs.length + 1) - 1 := by omega
      simp only [e1, e2]

theorem decodeFrom_bad_char : ∀ (s : List Char) (si : Nat) (dbuf : List Nat),
    (∃ c ∈ s, c ∉ base64.encodeURL ∧ c ≠ base64.LF ∧ c ≠ base64.CR) →
    ∃ k, (base64.decodeFrom s si dbuf).2 = some (Error.CorruptInputError k) := by
  intro s
  induction s with
  | nil =>
    intro si dbuf h
    obtain ⟨c, hc, _⟩ := h
    simp at hc
  | cons c cs ih =>
    intro si dbuf h
    obtain ⟨x, hx, hbad, hlf, hcr⟩ := h
    rcases List.mem_cons.mp hx with hxc | hxcs
    · subst hxc
      have hn := decodeMap_eq_none_of_not_mem x hbad
      exact ⟨si, by simp [base64.decodeFrom, hn, hlf, hcr]⟩
    · have hrest : ∃ c ∈ cs, c ∉ base64.encodeURL ∧ c ≠ base64.LF ∧ c ≠ base64.CR :=
        ⟨x, hxcs, hbad, hlf, hcr⟩
      simp only [base64.decodeFrom]
      split
      · split
        · exact ih _ _ hrest
        · exact ih _ _ hrest
      · split
        · exact ih _ _ hrest
        · exact ⟨si, rfl⟩

theorem decodeFrom_clean : ∀ (s : List Char) (si : Nat) (dbuf : List Nat),
    (∀ c ∈ s, c ∈ base64.encodeURL ∨ c = base64.LF ∨ c = base64.CR) → dbuf.length < 4 →
    (base64.decodeFrom s si dbuf).2 =
      if (dbuf.length + s.countP (fun ch => decide (ch ∈ base64.encodeURL))) % 4 = 1 then
        some (Error.CorruptInputError (si + s.length - 1))
      else none := by
  intro s
  induction s with
  | nil =>
    intro si dbuf _ hd
    match dbuf, hd with
    | [], _ => simp [base64.decodeFrom]
    | [_], _ => simp [base64.decodeFrom]
    | [_, _], _ => simp [base64.decodeFrom]
    | [_, _, _], _ => simp [base64.decodeFrom]
  | cons c cs ih =>
    intro si dbuf hs hd
    have hcs : ∀ x ∈ cs, x ∈ base64.encodeURL ∨ x = base64.LF ∨ x = base64.CR :=
      fun x hx => hs x (List.mem_cons_of_mem _ hx)
    have e2 : si + 1 + cs.length - 1 = si + (cs.length + 1) - 1 := by omega
    by_cases hc : c ∈ base64.encodeURL
    · obtain ⟨v, hv, _⟩ := decodeMap_isSome_of_mem c hc
      have hcount : (c :: cs).countP (fun ch => decide (ch ∈ base64.encodeURL))
          = cs.countP (fun ch => decide (ch ∈ base64.encodeURL)) + 1 := by
        rw [List.countP_cons_of_pos]
        simpa using hc
      rw [hcount]
      match dbuf, hd with
      | [], _ =>
        have := ih (si + 1) [v] hcs (by simp)
        simp only [base64.decodeFrom, hv, List.nil_append, this, List.length_cons,
          List.length_nil]
        have e1 : ∀ n, (0 + 1 + n) % 4 = (0 + (n + 1)) % 4 := by intro n; congr 1; omega
        simp only [e1, e2]
      | [d0], _ =>
        have := ih (si + 1) [d0, v] hcs (by simp)
        simp only [base64.decodeFrom, hv, List.singleton_append, this, List.length_cons,
          List.length_nil]
        have e1 : ∀ n, (0 + 1 + 1 + n) % 4 = (0 + 1 + (n + 1)) % 4 := by
          intro n; congr 1; omega
        simp only [e1, e2]
      | [d0, d1], _ =>
        have := ih (si + 1) [d0, d1, v] hcs (by simp)
        simp only [base64.decodeFrom, hv, List.cons_append, List.nil_append, this,
          List.length_cons, List.length_nil]
        have e1 : ∀ n, (0 + 1 + 1 + 1 + n) % 4 = (0 + 1 + 1 + (n + 1)) % 4 := by
          intro n; congr 1; omega
        simp only [e1, e2]
      | [d0, d1, d2], _ =>
        have := ih (si + 1) [] hcs (by simp)
        simp only [base64.decodeFrom, hv, this, List.length_cons, List.length_nil]
        have e1 : ∀ n, ((0 + 1 + 1 + 1 + (n + 1)) % 4 = 1) = ((0 + n) % 4 = 1) := by
          intro n; apply propext; omega
        simp only [e1, e2]
    · have hn := decodeMap_eq_none_of_not_mem c hc
      have hnl : c = base64.LF ∨ c = base64.CR := by
        rcases hs c (List.mem_cons_self _ _) with h | h
        · exact absurd h hc
        · exact h
      have hcount : (c :: cs).countP (fun ch => decide (ch ∈ base64.encodeURL))
          = cs.countP (fun ch => decide (ch ∈ base64.encodeURL)) := by
        rw [List.countP_cons_of_neg]
        simpa using hc
      rw [hcount]
      have := ih (si + 1) dbuf hcs hd
      simp only [base64.decodeFrom, hn, hnl, if_true, this, List.length_cons, e2]

theorem DecodeString_of_valid (s : String) (h : base64.Valid s) :
    (base64.DecodeString s).2 = none := by
  have := decodeFrom_valid s.data 0 [] h.1 (by simp)
  simp only [List.length_nil, Nat.zero_add] at this
  rw [base64.DecodeString, this, if_neg h.2]

theorem DecodeString_fails_iff (s : String) :
    (base64.DecodeString s).2 ≠ none ↔ base64.Rejected s := by
  unfold base64.DecodeString base64.Rejected
  by_cases hbad : ∃ ch ∈ s.data, ch ∉ base64.encodeURL ∧ ch ≠ base64.LF ∧ ch ≠ base64.CR
  · obtain ⟨k, hk⟩ := decodeFrom_bad_char s.data 0 [] hbad
    simp [hk, hbad]
  · have hclean : ∀ c ∈ s.data, c ∈ base64.encodeURL ∨ c = base64.LF ∨ c = base64.CR := by
      intro c hc
      by_contra hcon
      push_neg at hcon
      exact hbad ⟨c, hc, hcon.1, hcon.2.1, hcon.2.2⟩
    have := decodeFrom_clean s.data 0 [] hclean (by simp)
    simp only [List.length_nil, Nat.zero_add] at this
    rw [this]
    by_cases hm : (s.data.countP (fun ch => decide (ch ∈ base64.encodeURL))) % 4 = 1
    · simp [hm]
    · simp [hm, hbad]

theorem DecodeString_error (s : String) (h : base64.Rejected s) :
    ∃ k, (base64.DecodeString s).2 = some (Error.CorruptInputError k) := by
  have hne := (DecodeString_fails_iff s).mpr h
  rcases he : (base64.DecodeString s).2 with _ | e
  · exact absurd he hne
  · obtain ⟨k, hk⟩ := decodeFrom_error_kind s.data 0 [] e he
    exact ⟨k, by rw [hk]⟩

theorem not_Rejected_of_Valid (s : String) (h : base64.Valid s) : ¬ base64.Rejected s := by
  intro hr
  exact (DecodeString_fails_iff s).mpr hr (DecodeString_of_valid s h)

theorem Rejected_of_not_Valid (c : String) (hv : ¬ base64.Valid c)
    (hnl : ∀ ch ∈ c.data, ch ≠ base64.LF ∧ ch ≠ base64.CR) : base64.Rejected c := by
  by_cases hall : ∀ ch ∈ c.data, ch ∈ base64.encodeURL
  · right
    have hlen : c.data.length % 4 = 1 := by
      by_contra hne
      exact hv ⟨hall, hne⟩
    have : c.data.countP (fun ch => decide (ch ∈ base64.encodeURL)) = c.data.length := by
      rw [List.countP_eq_length]
      intro ch hch
      simpa using hall ch hch
    rw [this]
    exact hlen
  · left
    push_neg at hall
    obtain ⟨ch, hch, hbad⟩ := hall
    exact ⟨ch, hch, hbad, (hnl ch hch).1, (hnl ch hch).2⟩

/-! ## Facts about the functions of `jwt.go` -/

theorem marshalEncode_ok (lib : Lib Map PrivateKey PublicKey) (d : Map) (s : String)
    (h : marshalEncode lib d = (s, none)) :
    ∃ b, lib.Marshal d = Except.ok b ∧ s = base64.EncodeToString b := by
  unfold marshalEncode at h
  cases hm : lib.Marshal d with
  | error e => rw [hm] at h; simp at h
  | ok b =>
    rw [hm] at h
    simp at h
    exact ⟨b, rfl, h.symm⟩

theorem Encoding_ok (lib : Lib Map PrivateKey PublicKey) (j : JWT Map) (e : String)
    (h : j.Encoding lib = (e, none)) :
    ∃ bh bc, lib.Marshal j.header = Except.ok bh ∧ lib.Marshal j.claims = Except.ok bc ∧
      e = base64.EncodeToString bh ++ "." ++ base64.EncodeToString bc := by
  unfold JWT.Encoding marshalEncode at h
  cases hh : lib.Marshal j.header with
  | error e1 => rw [hh] at h; simp at h
  | ok bh =>
    cases hc : lib.Marshal j.claims with
    | error e2 => rw [hh, hc] at h; simp at h
    | ok bc =>
      rw [hh, hc] at h
      simp at h
      exact ⟨bh, bc, rfl, rfl, h.symm⟩

theorem Encoding_of_Marshal (lib : Lib Map PrivateKey PublicKey) (j : JWT Map)
    (bh bc : List Byte) (hh : lib.Marshal j.header = Except.ok bh)
    (hc : lib.Marshal j.claims = Except.ok bc) :
    j.Encoding lib = (base64.EncodeToString bh ++ "." ++ base64.EncodeToString bc, none) := by
  simp [JWT.Encoding, marshalEncode, hh, hc]

theorem signJWT_ok (lib : Lib Map PrivateKey PublicKey) (sk : PrivateKey) (j : JWT Map)
    (tok : String) (h : signJWT lib sk j = (tok, none)) :
    ∃ bh bc sig, lib.Marshal j.header = Except.ok bh ∧ lib.Marshal j.claims = Except.ok bc ∧
      lib.SignPKCS1v15 sk alg
        (lib.Sum256 (base64.EncodeToString bh ++ "." ++ base64.EncodeToString bc))
        = Except.ok sig ∧
      tok = base64.EncodeToString bh ++ "." ++ base64.EncodeToString bc ++ "." ++
        base64.EncodeToString sig := by
  unfold signJWT at h
  cases he : j.Encoding lib with
  | mk ss err =>
    cases err with
    | some e1 => rw [he] at h; simp at h
    | none =>
      obtain ⟨bh, bc, hh, hc, hss⟩ := Encoding_ok lib j ss he
      rw [he] at h
      simp only [execSha256] at h
      cases hs : lib.SignPKCS1v15 sk alg (lib.Sum256 ss) with
      | error e2 => rw [hs] at h; simp at h
      | ok sig =>
        rw [hs] at h
        simp at h
        subst hss
        exact ⟨bh, bc, sig, hh, hc, hs, h.symm⟩

theorem decodeUnmarshal_EncodeToString (lib : Lib Map PrivateKey PublicKey) (b : List Byte)
    (d : Map) :
    decodeUnmarshal lib (base64.EncodeToString b) d =
      ((lib.Unmarshal b d).1, (lib.Unmarshal b d).2.map Error.Json) := by
  unfold decodeUnmarshal
  rw [DecodeString_EncodeToString]
  simp only
  rcases lib.Unmarshal b d with ⟨d1, _ | e⟩ <;> rfl

theorem decodeUnmarshal_error_ne_New (lib : Lib Map PrivateKey PublicKey) (s : String)
    (d : Map) (text : String) : (decodeUnmarshal lib s d).2 ≠ some (Error.New text) := by
  unfold decodeUnmarshal
  rcases hd : base64.DecodeString s with ⟨decoded, _ | e⟩
  · simp only
    rcases lib.Unmarshal decoded d with ⟨d1, _ | e1⟩ <;> simp
  · obtain ⟨k, hk⟩ := decodeFrom_error_kind s.data 0 [] e (by
      have := congrArg Prod.snd hd
      simpa [base64.DecodeString] using this)
    simp [hk]

theorem decodeUnmarshal_fails_iff (lib : Lib Map PrivateKey PublicKey) (s : String) (d : Map) :
    (decodeUnmarshal lib s d).2 ≠ none ↔
      ((base64.DecodeString s).2 ≠ none ∨
        (lib.Unmarshal (base64.DecodeString s).1 d).2 ≠ none) := by
  unfold decodeUnmarshal
  rcases base64.DecodeString s with ⟨decoded, _ | e⟩
  · simp only
    rcases lib.Unmarshal decoded d with ⟨d1, _ | e1⟩ <;> simp
  · simp

theorem Parse_of_split (lib : Lib Map PrivateKey PublicKey) (s a b : String)
    (tl : List String) (h : strings.Split s '.' = a :: b :: tl) :
    Parse lib s =
      match decodeUnmarshal lib a lib.emptyMap with
      | (_, some err) => (none, some err)
      | (header, none) =>
        match decodeUnmarshal lib b lib.emptyMap with
        | (_, some err) => (none, some err)
        | (claims, none) => (some (JWT.mk header claims), none) := by
  simp [Parse, h]

theorem Parse_past_count (lib : Lib Map PrivateKey PublicKey) (s : String)
    (h : 2 ≤ (strings.Split s '.').length) (text : String) :
    Parse lib s ≠ (none, some (Error.New text)) := by
  rcases hs : strings.Split s '.' with _ | ⟨a, _ | ⟨b, tl⟩⟩
  · rw [hs] at h; simp at h
  · rw [hs] at h; simp at h
  rw [Parse_of_split lib s a b tl hs]
  have h0 := decodeUnmarshal_error_ne_New lib a lib.emptyMap text
  have h1 := decodeUnmarshal_error_ne_New lib b lib.emptyMap text
  rcases hr0 : decodeUnmarshal lib a lib.emptyMap with ⟨d0, _ | e0⟩
  · rcases hr1 : decodeUnmarshal lib b lib.emptyMap with ⟨d1, _ | e1⟩
    · simp
    · rw [hr1] at h1
      simpa using h1
  · rw [hr0] at h0
    simpa using h0

theorem verifyJWT_three (lib : Lib Map PrivateKey PublicKey) (token a b c : String)
    (key : PublicKey) (h : strings.Split token '.' = [a, b, c]) :
    verifyJWT lib token key =
      match base64.DecodeString c with
      | (_, some err) => some err
      | (sig, none) => (lib.VerifyPKCS1v15 key alg (lib.Sum256 (a ++ "." ++ b)) sig).map Error.Rsa := by
  simp [verifyJWT, h, execSha256]

theorem verifyJWT_of_length_ne (lib : Lib Map PrivateKey PublicKey) (token : String)
    (key : PublicKey) (h : (strings.Split token '.').length ≠ 3) :
    verifyJWT lib token key
      = some (Error.New "invalid token received, token must have 3 parts") := by
  simp [verifyJWT, h]

theorem verifyJWT_error_ne_New (lib : Lib Map PrivateKey PublicKey) (token : String)
    (key : PublicKey) (h : (strings.Split token '.').length = 3) (text : String) :
    verifyJWT lib token key ≠ some (Error.New text) := by
  rcases hs : strings.Split token '.' with _ | ⟨a, _ | ⟨b, _ | ⟨c, _ | ⟨d, tl⟩⟩⟩⟩ <;>
    rw [hs] at h <;> simp at h
  rw [verifyJWT_three lib token a b c key hs]
  rcases hd : base64.DecodeString c with ⟨sig, _ | e⟩
  · simp only
    rcases lib.VerifyPKCS1v15 key alg (lib.Sum256 (a ++ "." ++ b)) sig with _ | e1 <;> simp
  · obtain ⟨k, hk⟩ := decodeFrom_error_kind c.data 0 [] e (by
      have := congrArg Prod.snd hd
      simpa [base64.DecodeString] using this)
    simp [hk]

/-! ## Sign/verify agreement -/

/-- C1. Sign/verify agreement: when the RSA primitive accepts under `pk` every
signature it produces under `sk` (a valid key pair), every token string that
`signJWT` returns without error for `NewJWT H C` is accepted by `verifyJWT`
with `pk`. -/
theorem signJWT_verifyJWT (lib : Lib Map PrivateKey PublicKey) (sk : PrivateKey)
    (pk : PublicKey) (H C : Map) (tok : String)
    (hpair : ∀ d sig, lib.SignPKCS1v15 sk alg d = Except.ok sig →
      lib.VerifyPKCS1v15 pk alg d sig = none)
    (hsign : signJWT lib sk (NewJWT H C) = (tok, none)) :
    verifyJWT lib tok pk = none := by
  obtain ⟨bh, bc, sig, _, _, hs, htok⟩ := signJWT_ok lib sk _ tok hsign
  have hsplit := Split_three _ _ _ (dot_not_mem_EncodeToString bh)
    (dot_not_mem_EncodeToString bc) (dot_not_mem_EncodeToString sig)
  rw [← htok] at hsplit
  rw [verifyJWT_three lib tok _ _ _ pk hsplit, DecodeString_EncodeToString]
  simp [hpair _ _ hs]

set_option maxRecDepth 100000 in
/-- C1 at the worked example: header `{"alg":"RS256","typ":"JWT"}`, claims
`{"sub":"123"}`, key pair number 7. -/
theorem signJWT_verifyJWT_witness :
    signJWT demo 7 (NewJWT demoHeader demoClaims)
        = ("eyJhbGciOiJSUzI1NiIsInR5cCI6IkpXVCJ9.eyJzdWIiOiIxMjMifQ.B0vCNw", none) ∧
      verifyJWT demo "eyJhbGciOiJSUzI1NiIsInR5cCI6IkpXVCJ9.eyJzdWIiOiIxMjMifQ.B0vCNw" 7 = none :=
  ⟨by decide,
   signJWT_verifyJWT demo 7 7 demoHeader demoClaims _
     (fun d sig h => by
       simp only [demo] at h ⊢
       simp at h
       simp [h])
     (by decide)⟩

/-! ## Round trip -/

theorem Parse_encoded (lib : Lib Map PrivateKey PublicKey) (bh bc : List Byte) (s : String)
    (tl : List String)
    (h : strings.Split s '.' = base64.EncodeToString bh :: base64.EncodeToString bc :: tl) :
    Parse lib s =
      match lib.Unmarshal bh lib.emptyMap with
      | (_, some err) => (none, some (Error.Json err))
      | (header, none) =>
        match lib.Unmarshal bc lib.emptyMap with
        | (_, some err) => (none, some (Error.Json err))
        | (claims, none) => (some (JWT.mk header claims), none) := by
  rw [Parse_of_split lib s _ _ tl h, decodeUnmarshal_EncodeToString,
    decodeUnmarshal_EncodeToString]
  rcases lib.Unmarshal bh lib.emptyMap with ⟨d1, _ | e1⟩
  · rcases lib.Unmarshal bc lib.emptyMap with ⟨d2, _ | e2⟩ <;> rfl
  · rfl

theorem Parse_encoded_eq_iff (lib : Lib Map PrivateKey PublicKey) (bh bc : List Byte)
    (s : String) (tl : List String) (H C : Map)
    (h : strings.Split s '.' = base64.EncodeToString bh :: base64.EncodeToString bc :: tl) :
    Parse lib s = (some (NewJWT H C), none) ↔
      (lib.Unmarshal bh lib.emptyMap = (H, none) ∧
        lib.Unmarshal bc lib.emptyMap = (C, none)) := by
  rw [Parse_encoded lib bh bc s tl h]
  rcases lib.Unmarshal bh lib.emptyMap with ⟨d1, _ | e1⟩
  · rcases lib.Unmarshal bc lib.emptyMap with ⟨d2, _ | e2⟩
    · simp [NewJWT]
    · simp
  · simp

/-- C2, as the code has it.  For a header `H` and claims `C` that
`json.Marshal` serialises, `Encoding` succeeds, and `Parse` of the encoded
string returns what `json.Unmarshal` makes of the two serialisations read
into empty maps: its error, the header's first, or the two maps it produced.
The '.' and base64url layers lose nothing, so `Parse` returns `H` and `C`
if and only if `json.Unmarshal` gives both back from their serialisations. -/
theorem Parse_Encoding (lib : Lib Map PrivateKey PublicKey) (H C : Map) (bh bc : List Byte)
    (hH : lib.Marshal H = Except.ok bh) (hC : lib.Marshal C = Except.ok bc) :
    (NewJWT H C).Encoding lib
        = (base64.EncodeToString bh ++ "." ++ base64.EncodeToString bc, none) ∧
      Parse lib ((NewJWT H C).Encoding lib).1 =
        (match lib.Unmarshal bh lib.emptyMap with
          | (_, some err) => (none, some (Error.Json err))
          | (header, none) =>
            match lib.Unmarshal bc lib.emptyMap with
            | (_, some err) => (none, some (Error.Json err))
            | (claims, none) => (some (JWT.mk header claims), none)) ∧
      (Parse lib ((NewJWT H C).Encoding lib).1 = (some (NewJWT H C), none) ↔
        (lib.Unmarshal bh lib.emptyMap = (H, none) ∧
          lib.Unmarshal bc lib.emptyMap = (C, none))) := by
  have henc := Encoding_of_Marshal lib (NewJWT H C) bh bc hH hC
  have hsplit := Split_two _ _ (dot_not_mem_EncodeToString bh) (dot_not_mem_EncodeToString bc)
  rw [henc]
  exact ⟨rfl, Parse_encoded lib bh bc _ [] hsplit,
    Parse_encoded_eq_iff lib bh bc _ [] H C hsplit⟩

set_option maxRecDepth 100000 in
/-- C2 fails as stated: the nil map is a header that `json.Marshal`
serialises (as `null`), the token encodes, and `Parse` of the encoded string
returns the empty map as header, which is not the nil map and serialises to
`{}`, not to `null`. -/
theorem nil_header_not_reproduced :
    (NewJWT none (some demoClaims)).Encoding demoNil
        = ("bnVsbA.eyJzdWIiOiIxMjMifQ", none) ∧
      Parse demoNil "bnVsbA.eyJzdWIiOiIxMjMifQ"
        = (some (NewJWT (some "\x7b\x7d") (some demoClaims)), none) ∧
      Parse demoNil "bnVsbA.eyJzdWIiOiIxMjMifQ"
        ≠ (some (NewJWT none (some demoClaims)), none) ∧
      demoNil.Marshal none = Except.ok (demoBytes "null") ∧
      demoNil.Marshal (some "\x7b\x7d") = Except.ok (demoBytes "\x7b\x7d") ∧
      demoBytes "null" ≠ demoBytes "\x7b\x7d" :=
  ⟨by decide, by decide, by decide, rfl, rfl, by decide⟩

set_option maxRecDepth 100000 in
/-- C2 as amended, at the worked example: header and claims come back
because `json.Unmarshal` reproduces both. -/
theorem Parse_Encoding_witness :
    Parse demo ((NewJWT demoHeader demoClaims).Encoding demo).1
      = (some (NewJWT demoHeader demoClaims), none) :=
  (Parse_Encoding demo demoHeader demoClaims (demoBytes demoHeader) (demoBytes demoClaims)
    rfl rfl).2.2.mpr ⟨by decide, by decide⟩

/-- C3, as the code has it.  When `signJWT` succeeds for `NewJWT H C`,
`Parse` of the signed three-segment string gives the same result as on the
unsigned `Encoding` string, the signature segment playing no part: it
returns what `json.Unmarshal` makes of the serialisations of `H` and `C`
read into empty maps, and so returns `H` and `C` if and only if
`json.Unmarshal` gives both back. -/
theorem Parse_signJWT (lib : Lib Map PrivateKey PublicKey) (sk : PrivateKey) (H C : Map)
    (tok : String) (hsign : signJWT lib sk (NewJWT H C) = (tok, none)) :
    Parse lib tok = Parse lib ((NewJWT H C).Encoding lib).1 ∧
      ∃ bh bc, lib.Marshal H = Except.ok bh ∧ lib.Marshal C = Except.ok bc ∧
        Parse lib tok =
          (match lib.Unmarshal bh lib.emptyMap with
            | (_, some err) => (none, some (Error.Json err))
            | (header, none) =>
              match lib.Unmarshal bc lib.emptyMap with
              | (_, some err) => (none, some (Error.Json err))
              | (claims, none) => (some (JWT.mk header claims), none)) ∧
        (Parse lib tok = (some (NewJWT H C), none) ↔
          (lib.Unmarshal bh lib.emptyMap = (H, none) ∧
            lib.Unmarshal bc lib.emptyMap = (C, none))) := by
  obtain ⟨bh, bc, sig, hmh, hmc, _, htok⟩ := signJWT_ok lib sk _ tok hsign
  have h3 := Split_three _ _ _ (dot_not_mem_EncodeToString bh)
    (dot_not_mem_EncodeToString bc) (dot_not_mem_EncodeToString sig)
  rw [← htok] at h3
  have h2 := Split_two _ _ (dot_not_mem_EncodeToString bh) (dot_not_mem_EncodeToString bc)
  have henc := Encoding_of_Marshal lib (NewJWT H C) bh bc hmh hmc
  refine ⟨?_, bh, bc, hmh, hmc, Parse_encoded lib bh bc tok _ h3,
    Parse_encoded_eq_iff lib bh bc tok _ H C h3⟩
  rw [henc, Parse_encoded lib bh bc tok _ h3, Parse_encoded lib bh bc _ [] h2]

set_option maxRecDepth 100000 in
/-- C3 fails as stated: `signJWT` succeeds for a token whose claims are the
nil map, and `Parse` of the signed string returns the empty map as claims,
not the nil map. -/
theorem nil_claims_not_recovered :
    signJWT demoNil 7 (NewJWT (some demoHeader) none)
        = ("eyJhbGciOiJSUzI1NiIsInR5cCI6IkpXVCJ9.bnVsbA.B5wxKw", none) ∧
      Parse demoNil "eyJhbGciOiJSUzI1NiIsInR5cCI6IkpXVCJ9.bnVsbA.B5wxKw"
        = (some (NewJWT (some demoHeader) (some "\x7b\x7d")), none) ∧
      Parse demoNil "eyJhbGciOiJSUzI1NiIsInR5cCI6IkpXVCJ9.bnVsbA.B5wxKw"
        ≠ (some (NewJWT (some demoHeader) none), none) := by
  decide

set_option maxRecDepth 100000 in
/-- C3 as amended, at the worked example: the token with claims
`{"sub":"123"}`, signed with key number 7, parses like its unsigned
encoding. -/
theorem Parse_signJWT_witness :
    Parse demo "eyJhbGciOiJSUzI1NiIsInR5cCI6IkpXVCJ9.eyJzdWIiOiIxMjMifQ.B0vCNw"
      = Parse demo ((NewJWT demoHeader demoClaims).Encoding demo).1 :=
  (Parse_signJWT demo 7 demoHeader demoClaims
    "eyJhbGciOiJSUzI1NiIsInR5cCI6IkpXVCJ9.eyJzdWIiOiIxMjMifQ.B0vCNw" (by decide)).1

/-! ## Tampering -/

set_option maxRecDepth 100000 in
/-- The last character of an unpadded segment may carry bits that belong to
no octet, and `DecodeString` (not in strict mode) ignores them: in the worked
example the signature segment `B0vCNw` and `B0vCNx` decode to the same four
octets, so the token with its last character changed is still accepted. -/
theorem verifyJWT_trailing_bits :
    tamper "eyJhbGciOiJSUzI1NiIsInR5cCI6IkpXVCJ9.eyJzdWIiOiIxMjMifQ.B0vCNw" 61 'x'
        = "eyJhbGciOiJSUzI1NiIsInR5cCI6IkpXVCJ9.eyJzdWIiOiIxMjMifQ.B0vCNx" ∧
      base64.DecodeString "B0vCNx" = base64.DecodeString "B0vCNw" ∧
      verifyJWT demo "eyJhbGciOiJSUzI1NiIsInR5cCI6IkpXVCJ9.eyJzdWIiOiIxMjMifQ.B0vCNx" 7
        = none := by
  decide

/-! ## Failure kinds of the verifier -/

/-- C5, as the code has it.  A token of exactly 3 parts whose third part is
valid unpadded base64url gets from `verifyJWT`, under every key, exactly
what `rsa.VerifyPKCS1v15` returns for that key, `crypto.SHA256`, the digest
of the first two parts joined by '.' and the decoded third part: no error
when the primitive accepts, `rsa.ErrVerification` (the signature error of
the specification) when and only when the primitive reports a failed
verification, and any other error of the primitive unchanged.  A token
signed with `skA` gets under another public key `pkB` the primitive's
verdict on that signature and the signed digest. -/
theorem verifyJWT_primitive_verdict (lib : Lib Map PrivateKey PublicKey) :
    (∀ (token : String) (key : PublicKey),
        (strings.Split token '.').length = 3 →
        base64.Valid ((strings.Split token '.').getD 2 "") →
        (verifyJWT lib token key =
            (lib.VerifyPKCS1v15 key alg
              (lib.Sum256 ((strings.Split token '.').getD 0 "" ++ "." ++
                (strings.Split token '.').getD 1 ""))
              (base64.DecodeString ((strings.Split token '.').getD 2 "")).1).map Error.Rsa) ∧
          (verifyJWT lib token key = none ↔
            lib.VerifyPKCS1v15 key alg
              (lib.Sum256 ((strings.Split token '.').getD 0 "" ++ "." ++
                (strings.Split token '.').getD 1 ""))
              (base64.DecodeString ((strings.Split token '.').getD 2 "")).1 = none) ∧
          (verifyJWT lib token key = some rsa.ErrVerification ↔
            lib.VerifyPKCS1v15 key alg
              (lib.Sum256 ((strings.Split token '.').getD 0 "" ++ "." ++
                (strings.Split token '.').getD 1 ""))
              (base64.DecodeString ((strings.Split token '.').getD 2 "")).1
              = some "crypto/rsa: verification error")) ∧
      (∀ (skA : PrivateKey) (pkB : PublicKey) (jwt : JWT Map) (tok : String),
        signJWT lib skA jwt = (tok, none) →
        ∃ sig, lib.SignPKCS1v15 skA alg (lib.Sum256 (jwt.Encoding lib).1) = Except.ok sig ∧
          verifyJWT lib tok pkB =
            (lib.VerifyPKCS1v15 pkB alg (lib.Sum256 (jwt.Encoding lib).1) sig).map
              Error.Rsa) := by
  constructor
  · intro token key hlen hvalid
    rcases hs : strings.Split token '.' with _ | ⟨a, _ | ⟨b, _ | ⟨c, _ | ⟨d, tl⟩⟩⟩⟩ <;>
      rw [hs] at hlen <;> simp at hlen
    rw [hs] at hvalid
    simp only [List.getD_cons_zero, List.getD_cons_succ] at hvalid ⊢
    have hd := DecodeString_of_valid c hvalid
    have hv : verifyJWT lib token key =
        (lib.VerifyPKCS1v15 key alg (lib.Sum256 (a ++ "." ++ b))
          (base64.DecodeString c).1).map Error.Rsa := by
      rw [verifyJWT_three lib token a b c key hs]
      rcases hdc : base64.DecodeString c with ⟨sig, _ | e⟩
      · rfl
      · rw [hdc] at hd
        simp at hd
    rw [hv]
    refine ⟨rfl, ?_, ?_⟩
    · rcases lib.VerifyPKCS1v15 key alg (lib.Sum256 (a ++ "." ++ b))
        (base64.DecodeString c).1 with _ | e <;> simp
    · rcases lib.VerifyPKCS1v15 key alg (lib.Sum256 (a ++ "." ++ b))
        (base64.DecodeString c).1 with _ | e <;> simp [rsa.ErrVerification]
  · intro skA pkB jwt tok hsign
    obtain ⟨bh, bc, sig, hmh, hmc, hsg, htok⟩ := signJWT_ok lib skA jwt tok hsign
    have hsplit := Split_three _ _ _ (dot_not_mem_EncodeToString bh)
      (dot_not_mem_EncodeToString bc) (dot_not_mem_EncodeToString sig)
    rw [← htok] at hsplit
    rw [Encoding_of_Marshal lib jwt bh bc hmh hmc]
    refine ⟨sig, hsg, ?_⟩
    rw [verifyJWT_three lib tok _ _ _ pkB hsplit, DecodeString_EncodeToString]

set_option maxRecDepth 100000 in
/-- C5 fails as stated: the signed token of the worked example has 3 parts
and a valid third part, and under key number 0, the key without modulus,
`verifyJWT` returns the error the primitive gives for such a key, which is
not `rsa.ErrVerification`. -/
theorem zero_key_other_error :
    (strings.Split "eyJhbGciOiJSUzI1NiIsInR5cCI6IkpXVCJ9.eyJzdWIiOiIxMjMifQ.B0vCNw"
        '.').length = 3 ∧
      base64.Valid "B0vCNw" ∧
      verifyJWT demoNil "eyJhbGciOiJSUzI1NiIsInR5cCI6IkpXVCJ9.eyJzdWIiOiIxMjMifQ.B0vCNw" 0
        = some (Error.Rsa "crypto/rsa: missing public modulus") ∧
      verifyJWT demoNil "eyJhbGciOiJSUzI1NiIsInR5cCI6IkpXVCJ9.eyJzdWIiOiIxMjMifQ.B0vCNw" 0
        ≠ none ∧
      Error.Rsa "crypto/rsa: missing public modulus" ≠ rsa.ErrVerification := by
  decide

set_option maxRecDepth 100000 in
/-- C5 as amended, on the worked example: the token signed with key 7 is
checked against key 8; the primitive reports a failed verification and
`verifyJWT` returns `rsa.ErrVerification`. -/
theorem verifyJWT_primitive_verdict_witness :
    verifyJWT demo "eyJhbGciOiJSUzI1NiIsInR5cCI6IkpXVCJ9.eyJzdWIiOiIxMjMifQ.B0vCNw" 8
      = some rsa.ErrVerification :=
  ((verifyJWT_primitive_verdict demo).1
    "eyJhbGciOiJSUzI1NiIsInR5cCI6IkpXVCJ9.eyJzdWIiOiIxMjMifQ.B0vCNw" 8
    (by decide) (by decide)).2.2.mpr (by decide)

/-- C6. Verifier segment count: `verifyJWT` fails with its segment-count
error (`invalid token received, token must have 3 parts`, the malformed-token
format error of the specification) exactly when the split of the token on
'.' does not have 3 parts, that is when the token does not contain exactly
two '.'; this holds whatever the library functions and the key are, so
neither the signature nor the key is looked at, and a token of 3 parts never
fails with this error. -/
theorem verifyJWT_segment_count (lib : Lib Map PrivateKey PublicKey) (token : String)
    (key : PublicKey) :
    (verifyJWT lib token key
        = some (Error.New "invalid token received, token must have 3 parts") ↔
        (strings.Split token '.').length ≠ 3) ∧
      ((strings.Split token '.').length ≠ 3 ↔ token.data.count '.' ≠ 2) := by
  refine ⟨⟨fun hv hlen => ?_, fun hlen => ?_⟩, ?_⟩
  · exact verifyJWT_error_ne_New lib token key hlen _ hv
  · simp [verifyJWT, hlen]
  · rw [Split_length]
    omega

set_option maxRecDepth 100000 in
/-- The two-part string `a.b` of the specification: the segment-count error,
with any key. -/
theorem verifyJWT_two_parts :
    verifyJWT demo "a.b" 7
      = some (Error.New "invalid token received, token must have 3 parts") := by
  decide

set_option maxRecDepth 100000 in
/-- C8 fails as stated: in the three-part token `!.!.B7BaAw` the header and
claims segments are not base64url, yet `verifyJWT` reports no format error;
with the key that signed the content `!.!` it succeeds. -/
theorem bad_header_segment_accepted :
    strings.Split "!.!.B7BaAw" '.' = ["!", "!", "B7BaAw"] ∧ ¬ base64.Valid "!" ∧
      verifyJWT demo "!.!.B7BaAw" 7 = none := by
  decide

/-- C8, as the code has it: of the three segments `verifyJWT` decodes only
the signature.  A token of 3 parts fails with a base64 `CorruptInputError`
exactly when `DecodeString` refuses its third segment; otherwise the result
is the verdict of the RSA primitive on the first two segments as they stand,
valid base64url or not.  A third segment without line breaks that is not
valid unpadded base64url is always refused. -/
theorem verifyJWT_signature_segment (lib : Lib Map PrivateKey PublicKey)
    (token a b c : String) (key : PublicKey) (hs : strings.Split token '.' = [a, b, c]) :
    ((∃ k, verifyJWT lib token key = some (Error.CorruptInputError k)) ↔
        base64.Rejected c) ∧
      (¬ base64.Rejected c →
        verifyJWT lib token key =
          (lib.VerifyPKCS1v15 key alg (lib.Sum256 (a ++ "." ++ b))
            (base64.DecodeString c).1).map Error.Rsa) ∧
      (¬ base64.Valid c → (∀ ch ∈ c.data, ch ≠ base64.LF ∧ ch ≠ base64.CR) →
        base64.Rejected c) := by
  have hok : ¬ base64.Rejected c →
      verifyJWT lib token key =
        (lib.VerifyPKCS1v15 key alg (lib.Sum256 (a ++ "." ++ b))
          (base64.DecodeString c).1).map Error.Rsa := by
    intro hnr
    rw [verifyJWT_three lib token a b c key hs]
    have hd : (base64.DecodeString c).2 = none := by
      by_contra hne
      exact hnr ((DecodeString_fails_iff c).mp hne)
    rcases hdc : base64.DecodeString c with ⟨sig, _ | e⟩
    · rfl
    · rw [hdc] at hd
      simp at hd
  refine ⟨⟨fun hk => ?_, fun hr => ?_⟩, hok, Rejected_of_not_Valid c⟩
  · by_contra hnr
    obtain ⟨k, hk⟩ := hk
    rw [hok hnr] at hk
    rcases lib.VerifyPKCS1v15 key alg (lib.Sum256 (a ++ "." ++ b))
      (base64.DecodeString c).1 with _ | e <;> simp at hk
  · obtain ⟨k, hk⟩ := DecodeString_error c hr
    refine ⟨k, ?_⟩
    rw [verifyJWT_three lib token a b c key hs]
    rcases hdc : base64.DecodeString c with ⟨sig, _ | e⟩
    · rw [hdc] at hk
      simp at hk
    · rw [hdc] at hk
      simp only [Option.some.injEq] at hk
      simp [hk]

set_option maxRecDepth 100000 in
/-- C8 as amended, on a token whose signature segment has a character outside
the alphabet. -/
theorem verifyJWT_signature_segment_witness :
    strings.Split "e30.e30.B0!w" '.' = ["e30", "e30", "B0!w"] ∧
      ((∃ k, verifyJWT demo "e30.e30.B0!w" 7 = some (Error.CorruptInputError k)) ↔
        base64.Rejected "B0!w") :=
  ⟨by decide, (verifyJWT_signature_segment demo "e30.e30.B0!w" "e30" "e30" "B0!w" 7
    (by decide)).1⟩

/-! ## The parser -/

/-- C7. Parser segment count: `Parse` returns no token and the error
`invalid jwt format` exactly for the strings whose split on '.' has fewer
than 2 parts, and these are exactly the strings without a '.'; every string
containing a '.' gets past this check (its result is never this error). -/
theorem Parse_segment_count (lib : Lib Map PrivateKey PublicKey) (s : String) :
    (Parse lib s = (none, some (Error.New "invalid jwt format")) ↔
        (strings.Split s '.').length < 2) ∧
      ((strings.Split s '.').length < 2 ↔ '.' ∉ s.data) := by
  refine ⟨⟨fun hp => ?_, fun hl => ?_⟩, Split_length_lt_two_iff s⟩
  · by_contra hlen
    exact Parse_past_count lib s (by omega) _ hp
  · have : (strings.Split s '.').length ≤ 1 := by omega
    simp [Parse, this]

set_option maxRecDepth 100000 in
/-- The strings without a '.' that the specification names: the empty string
and `onlyonepart`. -/
theorem Parse_onlyonepart :
    Parse demo "onlyonepart" = (none, some (Error.New "invalid jwt format")) ∧
      Parse demo "" = (none, some (Error.New "invalid jwt format")) := by
  decide

/-- C9, as the code has it.  For a string of at least 2 parts, `Parse`
base64url-decodes the first segment, has `json.Unmarshal` read the bytes
into an empty map, and does the same with the second segment; the first of
these four steps that fails gives the error returned, with no token.  So
`Parse` returns an error if and only if one of the two decodings or one of
the two `json.Unmarshal` calls fails, and otherwise it returns exactly the
two maps `json.Unmarshal` produced, with no error. -/
theorem Parse_content (lib : Lib Map PrivateKey PublicKey) (s : String)
    (h : 2 ≤ (strings.Split s '.').length) :
    Parse lib s =
        (match base64.DecodeString ((strings.Split s '.').getD 0 "") with
          | (_, some err) => (none, some err)
          | (b0, none) =>
            match lib.Unmarshal b0 lib.emptyMap with
            | (_, some err) => (none, some (Error.Json err))
            | (header, none) =>
              match base64.DecodeString ((strings.Split s '.').getD 1 "") with
              | (_, some err) => (none, some err)
              | (b1, none) =>
                match lib.Unmarshal b1 lib.emptyMap with
                | (_, some err) => (none, some (Error.Json err))
                | (claims, none) => (some (JWT.mk header claims), none)) ∧
      ((Parse lib s).2 ≠ none ↔
        ((base64.DecodeString ((strings.Split s '.').getD 0 "")).2 ≠ none ∨
          (lib.Unmarshal (base64.DecodeString ((strings.Split s '.').getD 0 "")).1
            lib.emptyMap).2 ≠ none ∨
          (base64.DecodeString ((strings.Split s '.').getD 1 "")).2 ≠ none ∨
          (lib.Unmarshal (base64.DecodeString ((strings.Split s '.').getD 1 "")).1
            lib.emptyMap).2 ≠ none)) ∧
      ((Parse lib s).2 ≠ none → (Parse lib s).1 = none) ∧
      ((Parse lib s).2 = none →
        (Parse lib s).1 = some (JWT.mk
          (lib.Unmarshal (base64.DecodeString ((strings.Split s '.').getD 0 "")).1
            lib.emptyMap).1
          (lib.Unmarshal (base64.DecodeString ((strings.Split s '.').getD 1 "")).1
            lib.emptyMap).1)) := by
  rcases hs : strings.Split s '.' with _ | ⟨a, _ | ⟨b, tl⟩⟩
  · rw [hs] at h; simp at h
  · rw [hs] at h; simp at h
  rw [Parse_of_split lib s a b tl hs]
  simp only [List.getD_cons_zero, List.getD_cons_succ, decodeUnmarshal]
  rcases base64.DecodeString a with ⟨b0, _ | e0⟩
  · simp only
    rcases lib.Unmarshal b0 lib.emptyMap with ⟨m0, _ | j0⟩
    · simp only
      rcases base64.DecodeString b with ⟨b1, _ | e1⟩
      · simp only
        rcases lib.Unmarshal b1 lib.emptyMap with ⟨m1, _ | j1⟩
        · simp
        · simp
      · simp
    · simp
  · simp

set_option maxRecDepth 100000 in
/-- C9 fails as stated: both segments of `bnVsbA.bnVsbA` decode to the bytes
`null`, which is no mapping, and `Parse` does not fail: it returns a token
with two empty maps. -/
theorem null_segments_parse :
    base64.DecodeString "bnVsbA" = (demoBytes "null", none) ∧
      Parse demoNil "bnVsbA.bnVsbA"
        = (some (JWT.mk (some "\x7b\x7d") (some "\x7b\x7d")), none) := by
  decide

set_option maxRecDepth 100000 in
/-- C9 as amended, on a string whose header segment is not base64url: the
header's error is reported although the claims segment is bad as well. -/
theorem Parse_content_witness :
    2 ≤ (strings.Split "e!J9.e" '.').length ∧
      Parse demo "e!J9.e" = (none, some (Error.CorruptInputError 1)) :=
  ⟨by decide, (Parse_content demo "e!J9.e" (by decide)).1.trans (by decide)⟩

/-- C10. Parser ignores the signature: two strings of at least 2 parts each
that agree on their first two segments have the same `Parse` result, and
that result is the one of the two-segment string made of those segments. -/
theorem Parse_ignores_signature (lib : Lib Map PrivateKey PublicKey) (s1 s2 : String)
    (h1 : 2 ≤ (strings.Split s1 '.').length) (h2 : 2 ≤ (strings.Split s2 '.').length)
    (e0 : (strings.Split s1 '.').getD 0 "" = (strings.Split s2 '.').getD 0 "")
    (e1 : (strings.Split s1 '.').getD 1 "" = (strings.Split s2 '.').getD 1 "") :
    Parse lib s1 = Parse lib s2 ∧
      Parse lib s1 = Parse lib
        ((strings.Split s1 '.').getD 0 "" ++ "." ++ (strings.Split s1 '.').getD 1 "") := by
  rcases hs1 : strings.Split s1 '.' with _ | ⟨a1, _ | ⟨b1, tl1⟩⟩
  · rw [hs1] at h1; simp at h1
  · rw [hs1] at h1; simp at h1
  rcases hs2 : strings.Split s2 '.' with _ | ⟨a2, _ | ⟨b2, tl2⟩⟩
  · rw [hs2] at h2; simp at h2
  · rw [hs2] at h2; simp at h2
  rw [hs1, hs2] at e0 e1
  simp only [List.getD_cons_zero, List.getD_cons_succ] at e0 e1 ⊢
  subst e0 e1
  have hm0 : a1 ∈ strings.Split s1 '.' := by rw [hs1]; simp
  have hm1 : b1 ∈ strings.Split s1 '.' := by rw [hs1]; simp
  have hj := Split_two _ _ (mem_Split_no_dot s1 _ hm0) (mem_Split_no_dot s1 _ hm1)
  rw [Parse_of_split lib s1 _ _ tl1 hs1, Parse_of_split lib s2 _ _ tl2 hs2,
    Parse_of_split lib _ _ _ [] hj]
  exact ⟨rfl, rfl⟩

set_option maxRecDepth 100000 in
/-- C10 on a signed token and the same token with a forged third segment. -/
theorem Parse_ignores_signature_witness :
    Parse demo "eyJhbGciOiJSUzI1NiIsInR5cCI6IkpXVCJ9.eyJzdWIiOiIxMjMifQ.B0vCNw"
        = Parse demo "eyJhbGciOiJSUzI1NiIsInR5cCI6IkpXVCJ9.eyJzdWIiOiIxMjMifQ.forged" ∧
      Parse demo "eyJhbGciOiJSUzI1NiIsInR5cCI6IkpXVCJ9.eyJzdWIiOiIxMjMifQ.B0vCNw"
        = Parse demo "eyJhbGciOiJSUzI1NiIsInR5cCI6IkpXVCJ9.eyJzdWIiOiIxMjMifQ" :=
  Parse_ignores_signature demo
    "eyJhbGciOiJSUzI1NiIsInR5cCI6IkpXVCJ9.eyJzdWIiOiIxMjMifQ.B0vCNw"
    "eyJhbGciOiJSUzI1NiIsInR5cCI6IkpXVCJ9.eyJzdWIiOiIxMjMifQ.forged"
    (by decide) (by decide) (by decide) (by decide)

/-! ## Shape of the produced strings -/

theorem pad_not_mem_encodeURL : '=' ∉ base64.encodeURL := by decide

theorem pad_not_mem_EncodeToString (b : List Byte) : '=' ∉ (base64.EncodeToString b).data :=
  fun h => pad_not_mem_encodeURL (encodeChars_mem b _ h)

theorem count_dot_three_segments (a b c : List Char) (ha : '.' ∉ a) (hb : '.' ∉ b)
    (hc : '.' ∉ c) : (a ++ '.' :: (b ++ '.' :: c)).count '.' = 2 := by
  rw [List.count_append, List.count_cons_self, List.count_append, List.count_cons_self,
    List.count_eq_zero.mpr ha, List.count_eq_zero.mpr hb, List.count_eq_zero.mpr hc]

/-- C11. Three-segment invariant: a string that `signJWT` returns without
error contains exactly two '.', its split on '.' has exactly 3 segments, and
every segment is free of '.' and of the padding character '=' and is valid
unpadded base64url (alphabet characters only); a string that `Encoding`
returns without error contains exactly one '.'. -/
theorem signJWT_three_segments (lib : Lib Map PrivateKey PublicKey) (sk : PrivateKey)
    (jwt : JWT Map) :
    (∀ tok, signJWT lib sk jwt = (tok, none) →
        tok.data.count '.' = 2 ∧ (strings.Split tok '.').length = 3 ∧
        ∀ seg ∈ strings.Split tok '.',
          '.' ∉ seg.data ∧ '=' ∉ seg.data ∧ base64.Valid seg) ∧
      (∀ e, jwt.Encoding lib = (e, none) → e.data.count '.' = 1) := by
  constructor
  · intro tok hsign
    obtain ⟨bh, bc, sig, _, _, _, htok⟩ := signJWT_ok lib sk jwt tok hsign
    have hdh := dot_not_mem_EncodeToString bh
    have hdc := dot_not_mem_EncodeToString bc
    have hds := dot_not_mem_EncodeToString sig
    have hsplit := Split_three _ _ _ hdh hdc hds
    rw [← htok] at hsplit
    have htd : tok.data = (base64.EncodeToString bh).data ++
        '.' :: ((base64.EncodeToString bc).data ++ '.' :: (base64.EncodeToString sig).data) := by
      rw [htok]
      simp [String.data_append]
    refine ⟨?_, ?_, ?_⟩
    · rw [htd]
      exact count_dot_three_segments _ _ _ hdh hdc hds
    · rw [hsplit]
      rfl
    · intro seg hseg
      rw [hsplit] at hseg
      simp only [List.mem_cons, List.mem_singleton, List.not_mem_nil, or_false] at hseg
      rcases hseg with h | h | h <;> subst h
      · exact ⟨hdh, pad_not_mem_EncodeToString bh, EncodeToString_valid bh⟩
      · exact ⟨hdc, pad_not_mem_EncodeToString bc, EncodeToString_valid bc⟩
      · exact ⟨hds, pad_not_mem_EncodeToString sig, EncodeToString_valid sig⟩
  · intro e henc
    obtain ⟨bh, bc, _, _, he⟩ := Encoding_ok lib jwt e henc
    have hed : e.data = (base64.EncodeToString bh).data ++
        '.' :: (base64.EncodeToString bc).data := by
      rw [he]
      simp [String.data_append]
    rw [hed]
    exact count_dot_two_segments _ _ (dot_not_mem_EncodeToString bh)
      (dot_not_mem_EncodeToString bc)

set_option maxRecDepth 100000 in
/-- C11 at the worked example: the token signed with key 7 has two '.' and
three segments. -/
theorem signJWT_three_segments_witness :
    signJWT demo 7 (NewJWT demoHeader demoClaims)
        = ("eyJhbGciOiJSUzI1NiIsInR5cCI6IkpXVCJ9.eyJzdWIiOiIxMjMifQ.B0vCNw", none) ∧
      ("eyJhbGciOiJSUzI1NiIsInR5cCI6IkpXVCJ9.eyJzdWIiOiIxMjMifQ.B0vCNw".data.count '.' = 2 ∧
        (strings.Split "eyJhbGciOiJSUzI1NiIsInR5cCI6IkpXVCJ9.eyJzdWIiOiIxMjMifQ.B0vCNw"
          '.').length = 3 ∧
        ∀ seg ∈ strings.Split "eyJhbGciOiJSUzI1NiIsInR5cCI6IkpXVCJ9.eyJzdWIiOiIxMjMifQ.B0vCNw"
            '.',
          '.' ∉ seg.data ∧ '=' ∉ seg.data ∧ base64.Valid seg) :=
  ⟨by decide,
   (signJWT_three_segments demo 7 (NewJWT demoHeader demoClaims)).1 _ (by decide)⟩

/-- C12. Wire format: a successful `Encoding` returns
`base64url(JSON(header)) + "." + base64url(JSON(claims))`, and a successful
`signJWT` returns that signing input, a '.', and the unpadded base64url of
the signature that `rsa.SignPKCS1v15` gives for the hash `crypto.SHA256` and
the SHA-256 digest of exactly that two-segment signing input. -/
theorem wire_format (lib : Lib Map PrivateKey PublicKey) (sk : PrivateKey) (jwt : JWT Map) :
    (∀ e, jwt.Encoding lib = (e, none) →
        ∃ bh bc, lib.Marshal jwt.header = Except.ok bh ∧
          lib.Marshal jwt.claims = Except.ok bc ∧
          e = base64.EncodeToString bh ++ "." ++ base64.EncodeToString bc) ∧
      (∀ tok, signJWT lib sk jwt = (tok, none) →
        ∃ ss sig, jwt.Encoding lib = (ss, none) ∧
          lib.SignPKCS1v15 sk crypto.SHA256 (lib.Sum256 ss) = Except.ok sig ∧
          tok = ss ++ "." ++ base64.EncodeToString sig ∧ '=' ∉ tok.data) := by
  constructor
  · intro e henc
    exact Encoding_ok lib jwt e henc
  · intro tok hsign
    obtain ⟨bh, bc, sig, hmh, hmc, hsg, htok⟩ := signJWT_ok lib sk jwt tok hsign
    refine ⟨_, sig, Encoding_of_Marshal lib jwt bh bc hmh hmc, hsg, htok, ?_⟩
    rw [htok]
    simp only [String.data_append, List.mem_append, not_or]
    exact ⟨⟨⟨⟨pad_not_mem_EncodeToString bh, by decide⟩, pad_not_mem_EncodeToString bc⟩,
      by decide⟩, pad_not_mem_EncodeToString sig⟩

set_option maxRecDepth 100000 in
/-- C12 at the worked example. -/
theorem wire_format_witness :
    ∃ ss sig, (NewJWT demoHeader demoClaims).Encoding demo = (ss, none) ∧
      demo.SignPKCS1v15 7 crypto.SHA256 (demo.Sum256 ss) = Except.ok sig ∧
      "eyJhbGciOiJSUzI1NiIsInR5cCI6IkpXVCJ9.eyJzdWIiOiIxMjMifQ.B0vCNw"
        = ss ++ "." ++ base64.EncodeToString sig ∧
      '=' ∉ "eyJhbGciOiJSUzI1NiIsInR5cCI6IkpXVCJ9.eyJzdWIiOiIxMjMifQ.B0vCNw".data :=
  (wire_format demo 7 (NewJWT demoHeader demoClaims)).2 _ (by decide)

/-! ## Failure modes of the signer -/

theorem marshalEncode_error (lib : Lib Map PrivateKey PublicKey) (d : Map) (e : String)
    (h : lib.Marshal d = Except.error e) :
    marshalEncode lib d = ("", some (Error.Json e)) := by
  simp [marshalEncode, h]

theorem marshalEncode_of_ok (lib : Lib Map PrivateKey PublicKey) (d : Map) (b : List Byte)
    (h : lib.Marshal d = Except.ok b) :
    marshalEncode lib d = (base64.EncodeToString b, none) := by
  simp [marshalEncode, h]

theorem Encoding_header_error (lib : Lib Map PrivateKey PublicKey) (j : JWT Map) (e : String)
    (h : lib.Marshal j.header = Except.error e) :
    j.Encoding lib = ("", some (Error.Json e)) := by
  simp [JWT.Encoding, marshalEncode_error lib _ e h]

theorem Encoding_claims_error (lib : Lib Map PrivateKey PublicKey) (j : JWT Map)
    (bh : List Byte) (e : String) (hh : lib.Marshal j.header = Except.ok bh)
    (hc : lib.Marshal j.claims = Except.error e) :
    j.Encoding lib = ("", some (Error.Json e)) := by
  simp [JWT.Encoding, marshalEncode_of_ok lib _ bh hh, marshalEncode_error lib _ e hc]

theorem signJWT_of_Encoding_error (lib : Lib Map PrivateKey PublicKey) (sk : PrivateKey)
    (j : JWT Map) (s : String) (err : Error) (h : j.Encoding lib = (s, some err)) :
    signJWT lib sk j = ("", some err) := by
  simp [signJWT, h]

theorem signJWT_of_Sign_error (lib : Lib Map PrivateKey PublicKey) (sk : PrivateKey)
    (j : JWT Map) (ss e : String) (h : j.Encoding lib = (ss, none))
    (hs : lib.SignPKCS1v15 sk alg (lib.Sum256 ss) = Except.error e) :
    signJWT lib sk j = ("", some (Error.Rsa e)) := by
  simp [signJWT, h, execSha256, hs]

theorem signJWT_of_Sign_ok (lib : Lib Map PrivateKey PublicKey) (sk : PrivateKey)
    (j : JWT Map) (ss : String) (sig : List Byte) (h : j.Encoding lib = (ss, none))
    (hs : lib.SignPKCS1v15 sk alg (lib.Sum256 ss) = Except.ok sig) :
    signJWT lib sk j = (ss ++ "." ++ base64.EncodeToString sig, none) := by
  simp [signJWT, h, execSha256, hs]

/-- C13. Signer failure modes: `signJWT` returns an error if and only if
`json.Marshal` fails on the header, or on the claims, or `rsa.SignPKCS1v15`
fails on the digest of the signing input.  A header that does not serialise
gives the `encoding/json` error whatever the claims and the signature
primitive are; with a good header a claims map that does not serialise gives
its `encoding/json` error whatever the signature primitive is; with both
good a failing primitive gives its `crypto/rsa` error.  Whenever `signJWT`
returns an error the returned string is empty.  `Encoding` returns an error
exactly in the first two cases, the same error, and then the empty string. -/
theorem signJWT_failure_modes (lib : Lib Map PrivateKey PublicKey) (sk : PrivateKey)
    (jwt : JWT Map) :
    ((signJWT lib sk jwt).2 ≠ none ↔
        ((∃ e, lib.Marshal jwt.header = Except.error e) ∨
         (∃ e, lib.Marshal jwt.claims = Except.error e) ∨
         (∃ e, lib.SignPKCS1v15 sk alg (lib.Sum256 (jwt.Encoding lib).1) = Except.error e))) ∧
      ((jwt.Encoding lib).2 ≠ none ↔
        ((∃ e, lib.Marshal jwt.header = Except.error e) ∨
         (∃ e, lib.Marshal jwt.claims = Except.error e))) ∧
      (∀ e, lib.Marshal jwt.header = Except.error e →
        signJWT lib sk jwt = ("", some (Error.Json e)) ∧
        jwt.Encoding lib = ("", some (Error.Json e))) ∧
      (∀ bh e, lib.Marshal jwt.header = Except.ok bh →
        lib.Marshal jwt.claims = Except.error e →
        signJWT lib sk jwt = ("", some (Error.Json e)) ∧
        jwt.Encoding lib = ("", some (Error.Json e))) ∧
      (∀ ss e, jwt.Encoding lib = (ss, none) →
        lib.SignPKCS1v15 sk alg (lib.Sum256 ss) = Except.error e →
        signJWT lib sk jwt = ("", some (Error.Rsa e))) ∧
      ((signJWT lib sk jwt).2 ≠ none → (signJWT lib sk jwt).1 = "") ∧
      ((jwt.Encoding lib).2 ≠ none → (jwt.Encoding lib).1 = "") := by
  have hH : ∀ e, lib.Marshal jwt.header = Except.error e →
      signJWT lib sk jwt = ("", some (Error.Json e)) ∧
      jwt.Encoding lib = ("", some (Error.Json e)) := fun e h =>
    ⟨signJWT_of_Encoding_error lib sk jwt _ _ (Encoding_header_error lib jwt e h),
      Encoding_header_error lib jwt e h⟩
  have hC : ∀ bh e, lib.Marshal jwt.header = Except.ok bh →
      lib.Marshal jwt.claims = Except.error e →
      signJWT lib sk jwt = ("", some (Error.Json e)) ∧
      jwt.Encoding lib = ("", some (Error.Json e)) := fun bh e hh hc =>
    ⟨signJWT_of_Encoding_error lib sk jwt _ _ (Encoding_claims_error lib jwt bh e hh hc),
      Encoding_claims_error lib jwt bh e hh hc⟩
  refine ⟨?_, ?_, hH, hC, fun ss e h hs => signJWT_of_Sign_error lib sk jwt ss e h hs, ?_, ?_⟩
  · rcases hh : lib.Marshal jwt.header with e | bh
    · simp [(hH e hh).1]
    · rcases hc : lib.Marshal jwt.claims with e | bc
      · simp [(hC bh e hh hc).1]
      · have henc := Encoding_of_Marshal lib jwt bh bc hh hc
        rw [henc]
        rcases hs : lib.SignPKCS1v15 sk alg
            (lib.Sum256 (base64.EncodeToString bh ++ "." ++ base64.EncodeToString bc))
          with e | sig
        · simp [signJWT_of_Sign_error lib sk jwt _ e henc hs]
        · simp [signJWT_of_Sign_ok lib sk jwt _ sig henc hs]
  · rcases hh : lib.Marshal jwt.header with e | bh
    · simp [(hH e hh).2]
    · rcases hc : lib.Marshal jwt.claims with e | bc
      · simp [(hC bh e hh hc).2]
      · simp [Encoding_of_Marshal lib jwt bh bc hh hc]
  · intro hne
    rcases hh : lib.Marshal jwt.header with e | bh
    · rw [(hH e hh).1]
    · rcases hc : lib.Marshal jwt.claims with e | bc
      · rw [(hC bh e hh hc).1]
      · have henc := Encoding_of_Marshal lib jwt bh bc hh hc
        rcases hs : lib.SignPKCS1v15 sk alg
            (lib.Sum256 (base64.EncodeToString bh ++ "." ++ base64.EncodeToString bc))
          with e | sig
        · rw [signJWT_of_Sign_error lib sk jwt _ e henc hs]
        · rw [signJWT_of_Sign_ok lib sk jwt _ sig henc hs] at hne
          simp at hne
  · intro hne
    rcases hh : lib.Marshal jwt.header with e | bh
    · rw [(hH e hh).2]
    · rcases hc : lib.Marshal jwt.claims with e | bc
      · rw [(hC bh e hh hc).2]
      · rw [Encoding_of_Marshal lib jwt bh bc hh hc] at hne
        simp at hne

set_option maxRecDepth 100000 in
/-- C13 on three failing calls: a header that does not serialise (the claims
do not either), a claims map that does not serialise, and key number 0, for
which the signature primitive fails. -/
theorem signJWT_failure_modes_witness :
    (signJWT demo 7 (NewJWT "x" "y") = ("", some (Error.Json "json: unsupported type")) ∧
        (NewJWT "x" "y").Encoding demo = ("", some (Error.Json "json: unsupported type"))) ∧
      (signJWT demo 7 (NewJWT demoHeader "y")
          = ("", some (Error.Json "json: unsupported type")) ∧
        (NewJWT demoHeader "y").Encoding demo
          = ("", some (Error.Json "json: unsupported type"))) ∧
      signJWT demo 0 (NewJWT demoHeader demoClaims)
        = ("", some (Error.Rsa "crypto/rsa: message too long for RSA key size")) :=
  ⟨(signJWT_failure_modes demo 7 (NewJWT "x" "y")).2.2.1 _ rfl,
   (signJWT_failure_modes demo 7 (NewJWT demoHeader "y")).2.2.2.1 _ _ rfl rfl,
   (signJWT_failure_modes demo 0 (NewJWT demoHeader demoClaims)).2.2.2.2.1
     "eyJhbGciOiJSUzI1NiIsInR5cCI6IkpXVCJ9.eyJzdWIiOiIxMjMifQ" _ (by decide) rfl⟩

/-! ## What the signature covers -/

theorem Split_three_eq (token a b c : String) (h : strings.Split token '.' = [a, b, c]) :
    token = a ++ "." ++ b ++ "." ++ c := by
  have hj := splitChars_intercalate '.' token.data
  simp only [strings.Split] at h
  rcases hs : splitChars '.' token.data with _ | ⟨x, _ | ⟨y, _ | ⟨z, _ | ⟨w, tl⟩⟩⟩⟩ <;>
    rw [hs] at h <;> simp at h
  obtain ⟨ha, hb, hc⟩ := h
  subst ha hb hc
  rw [hs] at hj
  apply String.ext
  rw [← hj]
  simp [String.data_append, List.intercalate, List.intersperse]

/-- C14. Signature coverage: for a token of exactly 3 parts `a`, `b`, `c`,
the content `verifyJWT` hashes is `a + "." + b`, and that content followed by
'.' and `c` is the token itself; `c` has no '.', so the hashed content is all
of the token before its last '.'.  Hence a different three-part token with
the same signature segment has a different hashed content. -/
theorem signature_coverage (lib : Lib Map PrivateKey PublicKey) (token a b c : String)
    (key : PublicKey) (h : strings.Split token '.' = [a, b, c]) :
    verifyJWT lib token key =
        (match base64.DecodeString c with
          | (_, some err) => some err
          | (sig, none) =>
            (lib.VerifyPKCS1v15 key alg (execSha256 lib (a ++ "." ++ b)) sig).map Error.Rsa) ∧
      (a ++ "." ++ b) ++ "." ++ c = token ∧
      '.' ∉ c.data ∧
      (∀ token2 a2 b2 : String, strings.Split token2 '.' = [a2, b2, c] → token2 ≠ token →
        a2 ++ "." ++ b2 ≠ a ++ "." ++ b) := by
  have heq := Split_three_eq token a b c h
  refine ⟨?_, heq.symm, ?_, ?_⟩
  · rw [verifyJWT_three lib token a b c key h]
    rfl
  · exact mem_Split_no_dot token c (by rw [h]; simp)
  · intro token2 a2 b2 h2 hne hcon
    apply hne
    rw [heq, Split_three_eq token2 a2 b2 c h2, hcon]

set_option maxRecDepth 100000 in
/-- C14 at the signed token of the worked example. -/
theorem signature_coverage_witness :
    ("eyJhbGciOiJSUzI1NiIsInR5cCI6IkpXVCJ9" ++ "." ++ "eyJzdWIiOiIxMjMifQ") ++ "." ++ "B0vCNw"
        = "eyJhbGciOiJSUzI1NiIsInR5cCI6IkpXVCJ9.eyJzdWIiOiIxMjMifQ.B0vCNw" ∧
      '.' ∉ "B0vCNw".data :=
  ⟨(signature_coverage demo "eyJhbGciOiJSUzI1NiIsInR5cCI6IkpXVCJ9.eyJzdWIiOiIxMjMifQ.B0vCNw"
      "eyJhbGciOiJSUzI1NiIsInR5cCI6IkpXVCJ9" "eyJzdWIiOiIxMjMifQ" "B0vCNw" 7
      (by decide)).2.1,
   (signature_coverage demo "eyJhbGciOiJSUzI1NiIsInR5cCI6IkpXVCJ9.eyJzdWIiOiIxMjMifQ.B0vCNw"
      "eyJhbGciOiJSUzI1NiIsInR5cCI6IkpXVCJ9" "eyJzdWIiOiIxMjMifQ" "B0vCNw" 7
      (by decide)).2.2.1⟩

/-! ## Unsigned tokens -/

/-- C15. Unsigned tokens never verify: the two-segment string that `Encoding`
returns without error makes `verifyJWT` fail with its segment-count error
under every key, while `Parse` takes the same string past its own segment
check; and when `json.Unmarshal` accepts what `json.Marshal` wrote for the
header and for the claims, `Parse` returns a token and no error. -/
theorem unsigned_never_verifies (lib : Lib Map PrivateKey PublicKey) (jwt : JWT Map)
    (e : String) (key : PublicKey) (henc : jwt.Encoding lib = (e, none)) :
    verifyJWT lib e key
        = some (Error.New "invalid token received, token must have 3 parts") ∧
      (strings.Split e '.').length = 2 ∧
      Parse lib e ≠ (none, some (Error.New "invalid jwt format")) ∧
      ((∀ b, lib.Marshal jwt.header = Except.ok b →
          (lib.Unmarshal b lib.emptyMap).2 = none) →
        (∀ b, lib.Marshal jwt.claims = Except.ok b →
          (lib.Unmarshal b lib.emptyMap).2 = none) →
        (Parse lib e).2 = none ∧ (Parse lib e).1 ≠ none) := by
  obtain ⟨bh, bc, hmh, hmc, he⟩ := Encoding_ok lib jwt e henc
  have hsplit := Split_two _ _ (dot_not_mem_EncodeToString bh) (dot_not_mem_EncodeToString bc)
  rw [← he] at hsplit
  have hlen : (strings.Split e '.').length = 2 := by rw [hsplit]; rfl
  refine ⟨?_, hlen, ?_, ?_⟩
  · exact verifyJWT_of_length_ne lib e key (by omega)
  · exact Parse_past_count lib e (by omega) _
  · intro hh hc
    have h1 := hh bh hmh
    have h2 := hc bc hmc
    rw [Parse_of_split lib e _ _ [] hsplit, decodeUnmarshal_EncodeToString,
      decodeUnmarshal_EncodeToString]
    rcases hu1 : lib.Unmarshal bh lib.emptyMap with ⟨d1, _ | e1⟩
    · rcases hu2 : lib.Unmarshal bc lib.emptyMap with ⟨d2, _ | e2⟩
      · simp
      · rw [hu2] at h2
        simp at h2
    · rw [hu1] at h1
      simp at h1

set_option maxRecDepth 100000 in
/-- C15 at the worked example: the unsigned encoding is refused by
`verifyJWT` and parsed by `Parse`. -/
theorem unsigned_never_verifies_witness :
    (NewJWT demoHeader demoClaims).Encoding demo
        = ("eyJhbGciOiJSUzI1NiIsInR5cCI6IkpXVCJ9.eyJzdWIiOiIxMjMifQ", none) ∧
      verifyJWT demo "eyJhbGciOiJSUzI1NiIsInR5cCI6IkpXVCJ9.eyJzdWIiOiIxMjMifQ" 7
        = some (Error.New "invalid token received, token must have 3 parts") ∧
      Parse demo "eyJhbGciOiJSUzI1NiIsInR5cCI6IkpXVCJ9.eyJzdWIiOiIxMjMifQ"
        = (some (NewJWT demoHeader demoClaims), none) :=
  ⟨by decide,
   (unsigned_never_verifies demo (NewJWT demoHeader demoClaims)
      "eyJhbGciOiJSUzI1NiIsInR5cCI6IkpXVCJ9.eyJzdWIiOiIxMjMifQ" 7 (by decide)).1,
   by decide⟩

end auth
